import Mathlib

/-!
Verification development for the Qobuz label-catalog scraper
(`src/qobuzScraper/index.js`).

The JavaScript source is shallowly embedded: pure string/date helpers are
translated to executable Lean functions over `List Char` / `String`, the
per-candidate filter pipeline and the deduplication pass become explicit
state-passing functions over a `Stats` record, and the retrying fetch loop
becomes a function over an oracle describing the outcome of each HTTP
attempt.  DOM access through the cheerio library is abstracted by records
holding exactly the texts the source reads (first `h1` text, the candidate
`li`/`p`/`div` blocks with their anchor texts, and the full page text);
everything computed *from* those texts follows the source line by line.

JavaScript specifics that the embedding models explicitly:
* `replace(/\s+/g, " ")`, `trim`, `toLowerCase` (ASCII case, the only case
  appearing in the scraper's patterns);
* regular-expression matching for the fixed patterns of the source,
  implemented as leftmost-match scanners with the exact backtracking
  behaviour of those patterns;
* `new Date(Date.UTC(y, m-1, d))` followed by the three getter comparisons:
  the constructor normalises out-of-range fields by rollover and maps years
  0–99 to 1900+y, so the comparison succeeds exactly for calendar-valid
  day/month with year ≥ 100 (`utcRoundTripValid` below).
-/

namespace Qobuz

/-! ### JavaScript string primitives -/

/-- Whitespace class of JavaScript `\s` / `String.prototype.trim`
(ASCII whitespace plus NBSP and the BOM; the further Unicode space
separators do not occur in the scraper's data). -/
def jsIsWs (c : Char) : Bool :=
  c = ' ' || c = '\t' || c = '\n' || c = '\r' ||
  c.toNat = 11 || c.toNat = 12 || c.toNat = 0xA0 || c.toNat = 0xFEFF

/-- `String.prototype.trim` on a character list. -/
def jsTrimL (cs : List Char) : List Char :=
  ((cs.dropWhile jsIsWs).reverse.dropWhile jsIsWs).reverse

/-- Helper of `collapseWsL`: the flag records whether the previous character
was part of a whitespace run (for which a single `' '` was already output). -/
def collapseGo : Bool → List Char → List Char
  | _, [] => []
  | prevWs, c :: cs =>
    if jsIsWs c then
      if prevWs then collapseGo true cs else ' ' :: collapseGo true cs
    else c :: collapseGo false cs

/-- `replace(/\s+/g, " ")`: every maximal whitespace run becomes one space. -/
def collapseWsL (cs : List Char) : List Char := collapseGo false cs

/-- `String(text).replace(/\s+/g, " ").trim()` (and the equal-valued
`trim().replace(/\s+/g, " ")` used by the date parsers). -/
def normTextL (cs : List Char) : List Char := jsTrimL (collapseWsL cs)

/-- ASCII lowercasing, as `toLowerCase` acts on the scraper's patterns. -/
def toLowerL (cs : List Char) : List Char := cs.map Char.toLower

def jsTrimStr (s : String) : String := ⟨jsTrimL s.data⟩

def normTextStr (s : String) : String := ⟨normTextL s.data⟩

def jsToLowerStr (s : String) : String := ⟨toLowerL s.data⟩

/-- `String.prototype.startsWith`. -/
def jsStartsWith (s pre : String) : Bool := pre.data.isPrefixOf s.data

/-- `String.prototype.includes` on character lists. -/
def jsIncludesL (needle : List Char) : List Char → Bool
  | [] => needle.isPrefixOf ([] : List Char)
  | c :: t => needle.isPrefixOf (c :: t) || jsIncludesL needle t

def jsIncludes (s sub : String) : Bool := jsIncludesL sub.data s.data

def isDigitC (c : Char) : Bool := '0' ≤ c && c ≤ '9'

/-- Numeric value of a decimal digit character. -/
def digVal (c : Char) : Nat := c.toNat - 48

/-- Decimal value of a digit run (`Number` applied to a digit string). -/
def natOfDigits (ds : List Char) : Nat := ds.foldl (fun a c => a * 10 + digVal c) 0

/-- Digit character for `n % 10`. -/
def digCh (n : Nat) : Char :=
  match n % 10 with
  | 0 => '0' | 1 => '1' | 2 => '2' | 3 => '3' | 4 => '4'
  | 5 => '5' | 6 => '6' | 7 => '7' | 8 => '8' | _ => '9'

/-- Decimal digits of `n`, most significant first; the first argument is
fuel (`n` itself is always enough, since a number has at most `n` digits). -/
def jsNatDigitsAux : Nat → Nat → List Char
  | 0, n => [digCh (n % 10)]
  | f + 1, n => if n < 10 then [digCh n] else jsNatDigitsAux f (n / 10) ++ [digCh (n % 10)]

/-- JavaScript `String(n)` for a non-negative integer. -/
def jsNatToString (n : Nat) : String := ⟨jsNatDigitsAux n n⟩

/-- `String(n).padStart(2, "0")`. -/
def pad2 (n : Nat) : String :=
  let s := jsNatToString n
  if s.data.length < 2 then ⟨'0' :: s.data⟩ else s

/-! ### Calendar dates -/

/-- A day-precision calendar date (the scraper's dates carry no time of day). -/
structure YMD where
  y : Nat
  m : Nat
  d : Nat
deriving Repr, DecidableEq

/-- Proleptic Gregorian leap year, as used by the JavaScript `Date`. -/
def isLeapYear (y : Nat) : Bool := y % 4 = 0 && (y % 100 ≠ 0 || y % 400 = 0)

def daysInMonth (y m : Nat) : Nat :=
  if m = 2 then (if isLeapYear y then 29 else 28)
  else if m = 4 || m = 6 || m = 9 || m = 11 then 30
  else 31

/-- Plain calendar validity of a year/month/day triple. -/
def calendarValid (y m d : Nat) : Bool :=
  1 ≤ m && m ≤ 12 && 1 ≤ d && d ≤ daysInMonth y m

/-- Models `new Date(Date.UTC(y, m - 1, d))` followed by comparing
`getUTCFullYear/getUTCMonth/getUTCDate` against `y`, `m - 1`, `d`:
`Date.UTC` normalises out-of-range months/days by rollover and maps years
0–99 to `1900 + y`, so the three comparisons succeed exactly when the triple
is calendar-valid and `y ≥ 100`.  (All call sites pass `m, d ≤ 99`, so no
other normalisation can occur.) -/
def utcRoundTripValid (y m d : Nat) : Bool :=
  100 ≤ y && calendarValid y m d

/-- `a.getTime() <= b.getTime()` for calendar dates. -/
def ymdLeB (a b : YMD) : Bool :=
  decide (a.y < b.y ∨ (a.y = b.y ∧ (a.m < b.m ∨ (a.m = b.m ∧ a.d ≤ b.d))))

/-- `a.getTime() < b.getTime()` for calendar dates. -/
def ymdLtB (a b : YMD) : Bool :=
  decide (a.y < b.y ∨ (a.y = b.y ∧ (a.m < b.m ∨ (a.m = b.m ∧ a.d < b.d))))

/-! ### `parsePlDate` / `formatPlDate` (source lines 38–69) -/

/-- `parsePlDate(text, _)`: trim, match `^(\d{2})\.(\d{2})\.(\d{4})$`, then
the `Date.UTC` round-trip validity check; a failed match or an invalid
calendar date throws `INVALID_DATE_FORMAT`. -/
def parsePlDate (s : String) : Except String YMD :=
  match jsTrimL s.data with
  | [a, b, '.', c, e, '.', f, g, h, i] =>
    if isDigitC a && isDigitC b && isDigitC c && isDigitC e &&
       isDigitC f && isDigitC g && isDigitC h && isDigitC i then
      let day := 10 * digVal a + digVal b
      let month := 10 * digVal c + digVal e
      let year := 1000 * digVal f + 100 * digVal g + 10 * digVal h + digVal i
      if utcRoundTripValid year month day then Except.ok ⟨year, month, day⟩
      else Except.error "INVALID_DATE_FORMAT"
    else Except.error "INVALID_DATE_FORMAT"
  | _ => Except.error "INVALID_DATE_FORMAT"

/-- `formatPlDate`: `DD.MM.` followed by `String(year)` (the year is *not*
padded). -/
def formatPlDate (v : YMD) : String :=
  pad2 v.d ++ "." ++ pad2 v.m ++ "." ++ jsNatToString v.y

/-! ### `hmsToSeconds` (source lines 147–154) -/

/-- `hmsToSeconds`: trim, match `^(\d{1,2}):(\d{2})(?::(\d{2}))?$`.
A two-component value `X:YY` yields `X*60 + YY` (minutes:seconds); a
three-component value `X:YY:ZZ` yields `X*3600 + YY*60 + ZZ`. -/
def hmsToSeconds (s : String) : Option Nat :=
  let t := jsTrimL s.data
  let (a, r1) := t.span isDigitC
  if a.length = 0 || 3 ≤ a.length then none
  else
    match r1 with
    | ':' :: r2 =>
      let (b, r3) := r2.span isDigitC
      if b.length ≠ 2 then none
      else
        match r3 with
        | [] => some (natOfDigits a * 60 + natOfDigits b)
        | ':' :: r4 =>
          let (c, r5) := r4.span isDigitC
          if c.length = 2 && r5.isEmpty then
            some (natOfDigits a * 3600 + natOfDigits b * 60 + natOfDigits c)
          else none
        | _ => none
    | _ => none

/-! ### `normalizeKey` (source lines 156–158) -/

/-- `normalizeKey`: trim, collapse whitespace, lowercase. -/
def normalizeKey (s : String) : String := ⟨toLowerL (normTextL s.data)⟩

/-! ### Pattern-matching primitives for the source's regular expressions

Each regex of the source is fixed, so its JavaScript matching behaviour
(leftmost match; lazy `.*?`; greedy bounded digit runs with the induced
backtracking) is implemented directly as a scanner. -/

/-- JavaScript `\w` (word character), for `\b` boundaries. -/
def isWordChar (c : Char) : Bool := c.isAlphanum || c = '_'

/-- Case-insensitive literal match (the literal is given lowercase);
returns the remaining input on success. -/
def matchLitCI : List Char → List Char → Option (List Char)
  | [], cs => some cs
  | _ :: _, [] => none
  | l :: ls, c :: cs => if c.toLower = l then matchLitCI ls cs else none

/-- Try `f` on every suffix, leftmost (longest suffix) first — the regex
engine's scan over starting positions, and also the expansion order of a
lazy `.*?` gap. -/
def scanSuffixes (f : List Char → Option α) : List Char → Option α
  | [] => f []
  | c :: cs =>
    match f (c :: cs) with
    | some r => some r
    | none => scanSuffixes f cs

/-- Like `scanSuffixes`, threading the previous character so that `f` can
test a `\b` word boundary at its starting position. -/
def scanWithPrev (f : Option Char → List Char → Option α) :
    Option Char → List Char → Option α
  | prev, [] => f prev []
  | prev, c :: cs =>
    match f prev (c :: cs) with
    | some r => some r
    | none => scanWithPrev f (some c) cs

/-- A `\b` immediately before a word character holds when the previous
character is absent or not a word character. -/
def boundaryOk : Option Char → Bool
  | none => true
  | some c => !isWordChar c

/-- The capture `([A-Za-z.]+ \d{1,2}, \d{4})` matched at the head of the
input (greedy letter/digit runs; `\d{1,2}` backtracks from two digits to one
before the literal `", "`; `\d{4}` takes the first four of a longer run). -/
def captureMonth (cs : List Char) : Option (List Char) :=
  let (letters, r1) := cs.span fun c => c.isAlpha || c = '.'
  if letters.isEmpty then none
  else
    match r1 with
    | ' ' :: r2 =>
      let (ds, r3) := r2.span isDigitC
      let dayPart : Option (List Char × List Char) :=
        match ds, r3 with
        | [d1], ',' :: ' ' :: r4 => some ([d1], r4)
        | [d1, d2], ',' :: ' ' :: r4 => some ([d1, d2], r4)
        | _, _ => none
      match dayPart with
      | none => none
      | some (dds, r4) =>
        let (ys, _) := r4.span isDigitC
        if 4 ≤ ys.length then
          some (letters ++ ' ' :: (dds ++ ',' :: ' ' :: ys.take 4))
        else none
    | _ => none

/-- The capture `(\d{1,2}\/\d{1,2}\/\d{2,4})` matched at the head of the
input. -/
def captureNum (cs : List Char) : Option (List Char) :=
  let (a, r1) := cs.span isDigitC
  if a.isEmpty || 3 ≤ a.length then none
  else
    match r1 with
    | '/' :: r2 =>
      let (b, r3) := r2.span isDigitC
      if b.isEmpty || 3 ≤ b.length then none
      else
        match r3 with
        | '/' :: r4 =>
          let (c, _) := r4.span isDigitC
          if 2 ≤ c.length then some (a ++ '/' :: (b ++ '/' :: c.take 4))
          else none
        | _ => none
    | _ => none

/-- The three prefix templates of `RELEASE_PATTERNS_MONTH` /
`RELEASE_PATTERNS_NUM` (source lines 115–125). -/
inductive RelPat | releasedBy | releasedOn | toBeReleasedOn
deriving Repr, DecidableEq

/-- Match one full release pattern at a fixed starting position: the `\b`
boundary, the case-insensitive literal prefix (with the lazy `.*? on ` gap
for `Released by`), then the capture. -/
def matchPatAt (cap : List Char → Option (List Char)) (p : RelPat)
    (prev : Option Char) (cs : List Char) : Option (List Char) :=
  if boundaryOk prev then
    match p with
    | .releasedBy =>
      (matchLitCI "released by ".data cs).bind
        (scanSuffixes fun tail => (matchLitCI " on ".data tail).bind cap)
    | .releasedOn => (matchLitCI "released on ".data cs).bind cap
    | .toBeReleasedOn => (matchLitCI "to be released on ".data cs).bind cap
  else none

/-- `normalized.match(rx)` for one release pattern: the capture of the
leftmost match, if any. -/
def findFirstCapture (cap : List Char → Option (List Char)) (p : RelPat)
    (cs : List Char) : Option (List Char) :=
  scanWithPrev (matchPatAt cap p) none cs

/-! ### English / numeric date parsing (source lines 71–113) -/

/-- Month-name table of `parseEnglishMonthDate` (zero-based indices). -/
def monthMap : List Char → Option Nat
  | ['j', 'a', 'n'] => some 0
  | ['f', 'e', 'b'] => some 1
  | ['m', 'a', 'r'] => some 2
  | ['a', 'p', 'r'] => some 3
  | ['m', 'a', 'y'] => some 4
  | ['j', 'u', 'n'] => some 5
  | ['j', 'u', 'l'] => some 6
  | ['a', 'u', 'g'] => some 7
  | ['s', 'e', 'p'] => some 8
  | ['o', 'c', 't'] => some 9
  | ['n', 'o', 'v'] => some 10
  | ['d', 'e', 'c'] => some 11
  | _ => none

/-- `s.replace(/^Sept\s/i, "Sep ")` on a whitespace-collapsed string (the
only whitespace left is a single space). -/
def septFix (t : List Char) : List Char :=
  match t with
  | a :: b :: c :: d :: ' ' :: rest =>
    if toLowerL [a, b, c, d] = ['s', 'e', 'p', 't'] then 'S' :: 'e' :: 'p' :: ' ' :: rest
    else a :: b :: c :: d :: ' ' :: rest
  | other => other

/-- `normalizeMonthToken` applied to the part before the first space
(source lines 79–82): all dots are removed from the first token. -/
def dotStripFirstTok (t : List Char) : List Char :=
  if t.contains ' ' then
    (t.takeWhile (· ≠ ' ')).filter (· ≠ '.') ++ t.dropWhile (· ≠ ' ')
  else t

/-- `parseEnglishMonthDate` (source lines 75–97): trim+collapse, `Sept` fix,
dot-strip of the month token, anchored match of
`^([A-Za-z]+)\s+(\d{1,2}),\s*(\d{4})$`, month-name lookup on the first three
letters lowercased, then the `Date.UTC` round-trip validity check. -/
def parseEnglishMonthDate (s : String) : Option YMD :=
  let t0 := collapseWsL (jsTrimL s.data)
  if t0.isEmpty then none
  else
    let t := dotStripFirstTok (septFix t0)
    let (letters, r1) := t.span Char.isAlpha
    if letters.isEmpty then none
    else
      match r1 with
      | ' ' :: r2 =>
        let (ds, r3) := r2.span isDigitC
        if ds.isEmpty || 3 ≤ ds.length then none
        else
          match r3 with
          | ',' :: r4 =>
            let r5 := match r4 with
              | ' ' :: rest => rest
              | rest => rest
            let (ys, r6) := r5.span isDigitC
            if ys.length = 4 && r6.isEmpty then
              match monthMap (toLowerL (letters.take 3)) with
              | none => none
              | some mi =>
                let day := natOfDigits ds
                let year := natOfDigits ys
                if utcRoundTripValid year (mi + 1) day then some ⟨year, mi + 1, day⟩
                else none
            else none
          | _ => none
      | _ => none

/-- The two variants tried by `parseNumericUsDate` for components `p/q`:
month-first, then day-first (the year is already century-adjusted). -/
def usVariants (p q year : Nat) : List YMD := [⟨year, p, q⟩, ⟨year, q, p⟩]

/-- The `for (const v of variants)` loop: the first calendar-valid variant. -/
def firstValidYMD : List YMD → Option YMD
  | [] => none
  | v :: vs => if utcRoundTripValid v.y v.m v.d then some v else firstValidYMD vs

/-- `parseNumericUsDate` (source lines 99–113): trim+collapse, anchored
match of `^(\d{1,2})\/(\d{1,2})\/(\d{2,4})$`, two-digit years mapped to
`2000 + y`, then the first calendar-valid of month-first / day-first. -/
def parseNumericUsDate (s : String) : Option YMD :=
  let t := collapseWsL (jsTrimL s.data)
  if t.isEmpty then none
  else
    let (a, r1) := t.span isDigitC
    if a.isEmpty || 3 ≤ a.length then none
    else
      match r1 with
      | '/' :: r2 =>
        let (b, r3) := r2.span isDigitC
        if b.isEmpty || 3 ≤ b.length then none
        else
          match r3 with
          | '/' :: r4 =>
            let (c, r5) := r4.span isDigitC
            if 2 ≤ c.length && c.length ≤ 4 && r5.isEmpty then
              let y0 := natOfDigits c
              let year := if y0 < 100 then 2000 + y0 else y0
              firstValidYMD (usVariants (natOfDigits a) (natOfDigits b) year)
            else none
          | _ => none
      | _ => none

/-- `extractReleaseDateFromText` (source lines 127–145): normalise
whitespace, then try the three month-name patterns and the three numeric
patterns in order; a pattern whose leftmost match fails to parse falls
through to the next pattern. -/
def extractReleaseDateFromText (text : String) : Option YMD :=
  let n := normTextL text.data
  let tryM (p : RelPat) : Option YMD :=
    (findFirstCapture captureMonth p n).bind fun cap => parseEnglishMonthDate ⟨cap⟩
  let tryN (p : RelPat) : Option YMD :=
    (findFirstCapture captureNum p n).bind fun cap => parseNumericUsDate ⟨cap⟩
  tryM .releasedBy <|> tryM .releasedOn <|> tryM .toBeReleasedOn <|>
    tryN .releasedBy <|> tryN .releasedOn <|> tryN .toBeReleasedOn

/-! ### Page-text line handling

The source splits page text with `split(/\n+/)` and immediately trims each
piece and drops empty ones; splitting on single newlines followed by the
same trim/drop yields the identical list, so the embedding splits on single
newlines. -/

def splitOnCh (sep : Char) : List Char → List (List Char)
  | [] => [[]]
  | c :: cs =>
    if c = sep then [] :: splitOnCh sep cs
    else
      match splitOnCh sep cs with
      | t :: ts => (c :: t) :: ts
      | [] => [[c]]

/-- `pageText.split(/\n+/).map(trim).filter(Boolean)`. -/
def pageLines (pageText : String) : List (List Char) :=
  ((splitOnCh '\n' pageText.data).map jsTrimL).filter (· ≠ [])

/-- `line.split(/\s+/)`: collapsing whitespace runs first makes every run a
single space, so splitting on spaces afterwards matches the regex split. -/
def wsTokens (cs : List Char) : List (List Char) := splitOnCh ' ' (collapseWsL cs)

/-- `/\b(released|to be released)\b/i.test(line)`: since a match of the
second alternative contains a word-bounded match of the first, the test is
equivalent to the presence of a word-bounded `released`. -/
def hasReleasedWordGo : Option Char → List Char → Bool
  | _, [] => false
  | prev, c :: t =>
    (boundaryOk prev &&
      (match matchLitCI "released".data (c :: t) with
       | some [] => true
       | some (r :: _) => !isWordChar r
       | none => false)) ||
    hasReleasedWordGo (some c) t

def hasReleasedWord (l : List Char) : Bool := hasReleasedWordGo none l

/-- The line loop of `parseAlbumReleaseDate` (source lines 366–371). -/
def releasedLineHit : List (List Char) → Option YMD
  | [] => none
  | l :: ls =>
    if hasReleasedWord l then
      match extractReleaseDateFromText ⟨l⟩ with
      | some d => some d
      | none => releasedLineHit ls
    else releasedLineHit ls

/-- `parseAlbumReleaseDate` (source lines 364–373): scan the first 120
lines for one containing the word `released`; otherwise parse the
space-joined full line list. -/
def parseAlbumReleaseDate (pageText : String) : Option YMD :=
  let lines := pageLines pageText
  match releasedLineHit (lines.take 120) with
  | some d => some d
  | none => extractReleaseDateFromText ⟨List.intercalate [' '] lines⟩

/-! ### `parseAlbumFirstGenre` (source lines 327–362) -/

/-- Characters stripped from line starts: `^[\s#*\-•]+`. -/
def isBulletCh (c : Char) : Bool :=
  jsIsWs c || c = '#' || c = '*' || c = '-' || c = '•'

/-- The processed line list of `parseAlbumFirstGenre` (source line 328). -/
def genreLines (pageText : String) : List (List Char) :=
  ((pageLines pageText).map fun l => jsTrimL (l.dropWhile isBulletCh)).filter (· ≠ [])

/-- `/^(main artists|composer|label|total length|available in)\b/i.test(n)`
or a trailing colon — the conditions ending the tag scan. -/
def headingLikeB (n : List Char) : Bool :=
  (["main artists", "composer", "label", "total length", "available in"].any
    fun w =>
      match matchLitCI w.data n with
      | some [] => true
      | some (r :: _) => !isWordChar r
      | none => false) ||
  (match n.getLast? with
   | some ':' => true
   | _ => false)

/-- The tag-collecting loop over the next nine lines (source lines 346–352). -/
def collectTags : List (List Char) → List (List Char)
  | [] => []
  | n :: rest =>
    if n.isEmpty then collectTags rest
    else if headingLikeB n then []
    else n :: collectTags rest

/-- `tags[0] || null`. -/
def firstTag (cands : List (List Char)) : Option String :=
  (collectTags cands).head?.map fun t => (⟨t⟩ : String)

/-- `x || null` after trimming: empty becomes `none`. -/
def nzStr (l : List Char) : Option String :=
  if l.isEmpty then none else some ⟨l⟩

/-- The normalisation applied to a non-empty genre value (source lines
355–359): a `classical` prefix yields exactly `"Classical"`; otherwise the
trimmed part before the first delimiter, the delimiters being tried in the
order `/`, `,`, `|`, `›`, `>`; with no delimiter, the part before the first
space. -/
def normalizeRawGenre (raw : List Char) : Option String :=
  if "classical".data.isPrefixOf (toLowerL raw) then some "Classical"
  else if raw.contains '/' then nzStr (jsTrimL (raw.takeWhile (· ≠ '/')))
  else if raw.contains ',' then nzStr (jsTrimL (raw.takeWhile (· ≠ ',')))
  else if raw.contains '|' then nzStr (jsTrimL (raw.takeWhile (· ≠ '|')))
  else if raw.contains '›' then nzStr (jsTrimL (raw.takeWhile (· ≠ '›')))
  else if raw.contains '>' then nzStr (jsTrimL (raw.takeWhile (· ≠ '>')))
  else nzStr (jsTrimL (raw.takeWhile (· ≠ ' ')))

/-- The window loop of `parseAlbumFirstGenre` (source lines 332–360):
find the first line mentioning `genre`, read its value (after a leading
`genre:` key or after the leading word `genre`), falling back to the first
following tag line when the value is empty. -/
def genreScan : List (List Char) → Option String
  | [] => none
  | line :: rest =>
    let cf := toLowerL line
    if !jsIncludesL "genre".data cf then genreScan rest
    else if line.contains ':' then
      if toLowerL (jsTrimL (line.takeWhile (· ≠ ':'))) ≠ "genre".data then genreScan rest
      else
        let raw := normTextL ((line.dropWhile (· ≠ ':')).drop 1)
        if raw.isEmpty then firstTag (rest.take 9) else normalizeRawGenre raw
    else if !("genre".data.isPrefixOf cf) then genreScan rest
    else
      let raw := jsTrimL (List.intercalate [' '] ((wsTokens line).drop 1))
      if raw.isEmpty then firstTag (rest.take 9) else normalizeRawGenre raw

/-- `parseAlbumFirstGenre`: locate the `about the album` heading, then scan
the 160-line window from it. -/
def parseAlbumFirstGenre (pageText : String) : Option String :=
  let lines := genreLines pageText
  match lines.findIdx? (fun l => jsIncludesL "about the album".data (toLowerL l)) with
  | none => none
  | some i => genreScan ((lines.drop i).take 160)

/-! ### `parseAlbumDetails` (source lines 375–416)

DOM reads through cheerio are abstracted by `AlbumPage`: the text of the
first `h1`, the `li`/`p`/`div` elements in document order (each with its
text and its anchors' texts), and the root text.  Everything computed from
these follows the source. -/

structure DomBlock where
  text : String
  anchorTexts : List String
deriving Repr, DecidableEq

structure AlbumPage where
  h1Text : String
  blocks : List DomBlock
  pageText : String
deriving Repr, DecidableEq

structure AlbumDetails where
  title : String
  main_artists : String
  total_length_hms : String
  total_seconds : Nat
  release_date_album : Option YMD
  genre_first : Option String
deriving Repr, DecidableEq

/-- The part of the input before the first occurrence of `needle`
(`split(needle, 1)[0]`); the whole input when `needle` is absent. -/
def beforeSub (needle : List Char) : List Char → List Char
  | [] => []
  | c :: t => if needle.isPrefixOf (c :: t) then [] else c :: beforeSub needle t

/-- The leftmost match of
`/Total length:\s*([0-9]{1,2}:[0-9]{2}(?::[0-9]{2})?)/i` in the raw page
text, returning the capture. -/
def durationCaptureAt (cs : List Char) : Option (List Char) :=
  (matchLitCI "total length:".data cs).bind fun r1 =>
    let r2 := r1.dropWhile jsIsWs
    let (a, s1) := r2.span isDigitC
    if a.isEmpty || 3 ≤ a.length then none
    else
      match s1 with
      | ':' :: s2 =>
        let (b, s3) := s2.span isDigitC
        if b.length < 2 then none
        else
          let optTail : List Char :=
            if b.length = 2 then
              match s3 with
              | ':' :: t =>
                let (c2, _) := t.span isDigitC
                if 2 ≤ c2.length then ':' :: c2.take 2 else []
              | _ => []
            else []
          some (a ++ ':' :: (b.take 2 ++ optTail))
      | _ => none

def durationFirstMatch (pageText : String) : Option String :=
  (scanSuffixes durationCaptureAt pageText.data).map fun c => (⟨c⟩ : String)

/-- The title extraction of `parseAlbumDetails` (source lines 377–379):
the first heading's collapsed text, cut before `" by "` when present. -/
def albumTitle (page : AlbumPage) : List Char :=
  let h1 := normTextL page.h1Text.data
  if h1.isEmpty then []
  else if jsIncludesL " by ".data h1 then jsTrimL (beforeSub " by ".data h1)
  else h1

/-- The main-artists extraction of `parseAlbumDetails` (source lines
381–397): the first block whose text starts with `main artists:`; its
anchor texts joined by `", "`, else the text after the first colon. -/
def albumMainArtists (page : AlbumPage) : List Char :=
  match page.blocks.find? fun b =>
      "main artists:".data.isPrefixOf (toLowerL (normTextL b.text.data)) with
  | none => []
  | some b =>
    let artists := (b.anchorTexts.map fun a => normTextL a.data).filter (· ≠ [])
    if artists ≠ [] then List.intercalate ", ".data artists
    else normTextL ((b.text.data.dropWhile (· ≠ ':')).drop 1)

/-- `parseAlbumDetails`: title from the first heading (cut before `" by "`),
main artists from the first block starting with `main artists:` (anchor
texts joined by `", "`, else the text after the first colon), then the
duration — whose absence invalidates the record —, the detail release date
and the first genre; a record with empty title *and* empty artists is
invalid. -/
def parseAlbumDetails (page : AlbumPage) : Option AlbumDetails :=
  let title := albumTitle page
  let mainArtists := albumMainArtists page
  match durationFirstMatch page.pageText with
  | none => none
  | some cap =>
    let totalHms := jsTrimStr cap
    match hmsToSeconds totalHms with
    | none => none
    | some secs =>
      if title.isEmpty && mainArtists.isEmpty then none
      else
        some {
          title := ⟨title⟩
          main_artists := ⟨mainArtists⟩
          total_length_hms := totalHms
          total_seconds := secs
          release_date_album := parseAlbumReleaseDate page.pageText
          genre_first := parseAlbumFirstGenre page.pageText }

/-! ### Run state (source lines 497–510) -/

/-- The mutable counter bag of `runQobuzScraper`. -/
structure Stats where
  labelsTotal : Nat := 0
  labelsProcessed : Nat := 0
  candidatesTotal : Nat := 0
  albumsFetched : Nat := 0
  accepted : Nat := 0
  rejectedByGenre : Nat := 0
  rejectedByLength : Nat := 0
  rejectedByDateMismatch : Nat := 0
  missingAlbumDate : Nat := 0
  duplicatesRemoved : Nat := 0
  httpErrors : Nat := 0
  parseErrors : Nat := 0
deriving Repr, DecidableEq

/-- The configuration fields read by the filter pipeline. -/
structure Config where
  date_from : YMD
  date_to : YMD
  genre_root : String
  min_minutes : Nat
deriving Repr, DecidableEq

structure Candidate where
  album_url : String
  label_name : String
  release_date_listing : YMD
deriving Repr, DecidableEq

structure AcceptedRecord where
  album_title : String
  main_artists : String
  label : String
  album_url : String
  release_date : YMD
deriving Repr, DecidableEq

/-! ### `fetchHtml` (source lines 438–485)

The network is an oracle giving the outcome of each attempt (HTTP status
with body, or a thrown network error / timeout abort — both reach the same
`catch`).  The source loop runs `attempt = 1 .. retries`; the
`attempt > config.retries` guard inside the `catch` can never fire there,
so a caught error always backs off and continues.  Backoffs are recorded to
expose the per-class base constants (2000ms for 429, 1000ms for 5xx and
network errors). -/

inductive FetchOutcome
  | status (code : Nat) (body : String)
  | netError
deriving Repr, DecidableEq

structure FetchResult where
  result : Option String
  httpErrorsDelta : Nat
  attempts : Nat
  backoffs : List Nat
deriving Repr, DecidableEq

def fetchGo (resp : Nat → FetchOutcome) : Nat → Nat → FetchResult
  | 0, _ => ⟨none, 1, 0, []⟩
  | remaining + 1, attempt =>
    match resp attempt with
    | .status code body =>
      if code = 429 then
        let r := fetchGo resp remaining (attempt + 1)
        ⟨r.result, r.httpErrorsDelta, r.attempts + 1, 2000 * 2 ^ (attempt - 1) :: r.backoffs⟩
      else if 500 ≤ code && code < 600 then
        let r := fetchGo resp remaining (attempt + 1)
        ⟨r.result, r.httpErrorsDelta, r.attempts + 1, 1000 * 2 ^ (attempt - 1) :: r.backoffs⟩
      else if code ≠ 200 then ⟨none, 1, 1, []⟩
      else ⟨some body, 0, 1, []⟩
    | .netError =>
      let r := fetchGo resp remaining (attempt + 1)
      ⟨r.result, r.httpErrorsDelta, r.attempts + 1, 1000 * 2 ^ (attempt - 1) :: r.backoffs⟩

/-- `fetchHtml(url, config, stats)` under a given `retries` configuration. -/
def fetchHtml (resp : Nat → FetchOutcome) (retries : Nat) : FetchResult :=
  fetchGo resp retries 1

/-! ### Listing-phase candidate extraction (source lines 302–325)

The cheerio walk locating each anchor's unique containing region is
abstracted: each album anchor carries its raw `href`, its resolved absolute
URL, and the result of `extractListingReleaseDateForLink` (a date, no date,
or a thrown exception).  The loop body — the `/album/` href filter, the
per-page dedup, the exception counting, and the strict listing date-range
filter — follows the source. -/

inductive RelResult
  | found (d : YMD)
  | noDate
  | errored
deriving Repr, DecidableEq

structure ListingLink where
  href : String
  albumUrl : String
  rel : RelResult
deriving Repr, DecidableEq

def listingGo (startD endD : YMD) (labelName : String) :
    List String → Stats → List ListingLink → List Candidate × Stats
  | _, st, [] => ([], st)
  | seen, st, link :: rest =>
    if !jsIncludes link.href "/album/" then listingGo startD endD labelName seen st rest
    else if seen.contains link.albumUrl then listingGo startD endD labelName seen st rest
    else
      let seen' := link.albumUrl :: seen
      match link.rel with
      | .errored =>
        listingGo startD endD labelName seen'
          { st with parseErrors := st.parseErrors + 1 } rest
      | .noDate => listingGo startD endD labelName seen' st rest
      | .found d =>
        if ymdLeB startD d && ymdLeB d endD then
          let (cs, st') := listingGo startD endD labelName seen' st rest
          (⟨link.albumUrl, labelName, d⟩ :: cs, st')
        else listingGo startD endD labelName seen' st rest

/-- `extractAlbumCandidatesFromListing`, restricted to its candidate loop
(pagination detection is orthogonal to the claims). -/
def extractAlbumCandidatesFromListing (startD endD : YMD) (labelName : String)
    (st : Stats) (links : List ListingLink) : List Candidate × Stats :=
  listingGo startD endD labelName [] st links

/-! ### Per-candidate filter pipeline (source lines 615–645) -/

/-- The missing-date report line
`label \t album_url \t listing date \t title \t artists` (source line 621). -/
def missingRowFor (cand : Candidate) (det : AlbumDetails) : String :=
  cand.label_name ++ "\t" ++ cand.album_url ++ "\t" ++
    formatPlDate cand.release_date_listing ++ "\t" ++ det.title ++ "\t" ++ det.main_artists

/-- `String(det.genre_first || "").trim().toLowerCase()`. -/
def genreValue (det : AlbumDetails) : String :=
  jsToLowerStr (jsTrimStr (det.genre_first.getD ""))

/-- `genre.startsWith(config.genre_root.toLowerCase())`. -/
def genrePassB (cfg : Config) (det : AlbumDetails) : Bool :=
  jsStartsWith (genreValue det) (jsToLowerStr cfg.genre_root)

/-- `det.total_seconds < config.min_minutes * 60`. -/
def lengthFailB (cfg : Config) (det : AlbumDetails) : Bool :=
  det.total_seconds < cfg.min_minutes * 60

/-- The genre and length stages plus acceptance, shared by the two
date-resolution branches (the missing-date report line, when present, was
already pushed and stays pushed on rejection). -/
def finishCandidate (cfg : Config) (st : Stats) (cand : Candidate)
    (det : AlbumDetails) (finalRelease : YMD) (row : Option String) :
    Stats × Option AcceptedRecord × Option String :=
  if !genrePassB cfg det then
    ({ st with rejectedByGenre := st.rejectedByGenre + 1 }, none, row)
  else if lengthFailB cfg det then
    ({ st with rejectedByLength := st.rejectedByLength + 1 }, none, row)
  else
    (st,
     some ⟨det.title, det.main_artists, cand.label_name, cand.album_url, finalRelease⟩,
     row)

/-- The body of the album loop once `parseAlbumDetails` has produced a
record: resolve the final release date (listing-date fallback with a
missing-date report line, or the detail date with the range check), then
the genre and length stages. -/
def processCandidate (cfg : Config) (st : Stats) (cand : Candidate)
    (det : AlbumDetails) : Stats × Option AcceptedRecord × Option String :=
  match det.release_date_album with
  | some d =>
    if ymdLtB d cfg.date_from || ymdLtB cfg.date_to d then
      ({ st with rejectedByDateMismatch := st.rejectedByDateMismatch + 1 }, none, none)
    else finishCandidate cfg st cand det d none
  | none =>
    finishCandidate cfg { st with missingAlbumDate := st.missingAlbumDate + 1 }
      cand det cand.release_date_listing (some (missingRowFor cand det))

/-- One iteration of the album loop (source lines 594–645): the candidate
paired with `none` models a failed fetch, a parse exception or a `null`
`parseAlbumDetails` (each of which skips the candidate). -/
def detailStep (cfg : Config) (acc : Stats × List AcceptedRecord × List String)
    (item : Candidate × Option AlbumDetails) :
    Stats × List AcceptedRecord × List String :=
  let st := { acc.1 with albumsFetched := acc.1.albumsFetched + 1 }
  match item.2 with
  | none => (st, acc.2.1, acc.2.2)
  | some det =>
    let (st', rec, row) := processCandidate cfg st item.1 det
    (st', acc.2.1 ++ rec.toList, acc.2.2 ++ row.toList)

/-- The whole album loop: accepted records and missing-date report lines in
order. -/
def detailPhase (cfg : Config) (st : Stats)
    (items : List (Candidate × Option AlbumDetails)) :
    Stats × List AcceptedRecord × List String :=
  items.foldl (detailStep cfg) (st, [], [])

/-! ### Deduplication (source lines 647–658) -/

/-- The dedup key
`normalizeKey(title) || "||" || normalizeKey(artists) || "||" || normalizeKey(label)`. -/
def recKey (r : AcceptedRecord) : String :=
  normalizeKey r.album_title ++ "||" ++ normalizeKey r.main_artists ++ "||" ++
    normalizeKey r.label

/-- The `accepted.forEach` loop with its `seen` set and duplicate counter. -/
def dedupGo (seen : List String) : List AcceptedRecord → List AcceptedRecord × Nat
  | [] => ([], 0)
  | r :: rs =>
    if seen.contains (recKey r) then
      let (o, c) := dedupGo seen rs
      (o, c + 1)
    else
      let (o, c) := dedupGo (recKey r :: seen) rs
      (r :: o, c)

/-- Deduplication over the accepted list: kept records in order, and the
number of removed duplicates. -/
def dedupRecords (recs : List AcceptedRecord) : List AcceptedRecord × Nat :=
  dedupGo [] recs

/-- The stats effect of the dedup pass: `duplicatesRemoved` grows by the
drop count and `accepted` is set to the output length (source lines
652/658). -/
def dedupPhase (st : Stats) (recs : List AcceptedRecord) :
    Stats × List AcceptedRecord :=
  let (out, c) := dedupRecords recs
  ({ st with duplicatesRemoved := st.duplicatesRemoved + c, accepted := out.length }, out)

/-! ## Supporting lemmas -/

theorem digCh_mod (n : Nat) : digCh n = digCh (n % 10) := by
  simp [digCh, Nat.mod_mod_of_dvd n dvd_rfl]

theorem digVal_digCh {n : Nat} (h : n < 10) : digVal (digCh n) = n := by
  have : ∀ m, m < 10 → digVal (digCh m) = m := by decide
  exact this n h

theorem isDigitC_digCh (n : Nat) : isDigitC (digCh n) = true := by
  rw [digCh_mod]
  have : ∀ m, m < 10 → isDigitC (digCh m) = true := by decide
  exact this _ (Nat.mod_lt n (by omega))

theorem jsIsWs_digCh (n : Nat) : jsIsWs (digCh n) = false := by
  rw [digCh_mod]
  have : ∀ m, m < 10 → jsIsWs (digCh m) = false := by decide
  exact this _ (Nat.mod_lt n (by omega))

theorem jsNatDigitsAux_small {n : Nat} (f : Nat) (h : n < 10) :
    jsNatDigitsAux f n = [digCh n] := by
  cases f with
  | zero => simp [jsNatDigitsAux, ← digCh_mod]
  | succ f => simp [jsNatDigitsAux, h]

theorem jsNatDigitsAux_step {f n : Nat} (hf : 1 ≤ f) (hn : 10 ≤ n) :
    jsNatDigitsAux f n = jsNatDigitsAux (f - 1) (n / 10) ++ [digCh (n % 10)] := by
  cases f with
  | zero => omega
  | succ f => simp [jsNatDigitsAux, Nat.not_lt.2 hn]

theorem jsNatDigits_one {n : Nat} (h : n < 10) : (jsNatToString n).data = [digCh n] :=
  jsNatDigitsAux_small n h

theorem jsNatDigits_two {n : Nat} (h1 : 10 ≤ n) (h2 : n < 100) :
    (jsNatToString n).data = [digCh (n / 10), digCh (n % 10)] := by
  show jsNatDigitsAux n n = _
  rw [jsNatDigitsAux_step (by omega) h1, jsNatDigitsAux_small _ (by omega)]
  rfl

theorem jsNatDigits_four {y : Nat} (h1 : 1000 ≤ y) (h2 : y < 10000) :
    (jsNatToString y).data =
      [digCh (y / 1000), digCh (y / 100 % 10), digCh (y / 10 % 10), digCh (y % 10)] := by
  show jsNatDigitsAux y y = _
  rw [jsNatDigitsAux_step (by omega) (by omega),
    jsNatDigitsAux_step (by omega) (by omega : 10 ≤ y / 10),
    jsNatDigitsAux_step (by omega) (by omega : 10 ≤ y / 10 / 10),
    jsNatDigitsAux_small _ (by omega : y / 10 / 10 / 10 < 10)]
  have e2 : y / 10 / 10 / 10 = y / 1000 := by omega
  have e1 : y / 10 / 10 = y / 100 := by omega
  rw [e2, e1]
  simp

theorem pad2_data {n : Nat} (h : n < 100) : (pad2 n).data = [digCh (n / 10), digCh (n % 10)] := by
  by_cases h10 : n < 10
  · have hd := jsNatDigits_one h10
    have e0 : n / 10 = 0 := by omega
    have em : n % 10 = n := by omega
    simp [pad2, hd, e0, em]
    rfl
  · have hd := jsNatDigits_two (by omega) h
    simp [pad2, hd]

theorem formatPlDate_data {y m d : Nat} (hd : d < 100) (hm : m < 100)
    (hy1 : 1000 ≤ y) (hy2 : y < 10000) :
    (formatPlDate ⟨y, m, d⟩).data =
      [digCh (d / 10), digCh (d % 10), '.', digCh (m / 10), digCh (m % 10), '.',
       digCh (y / 1000), digCh (y / 100 % 10), digCh (y / 10 % 10), digCh (y % 10)] := by
  simp [formatPlDate, String.data_append, pad2_data hd, pad2_data hm,
    jsNatDigits_four hy1 hy2]

/-- Parsing a formatted date reduces to the validity test of its
components. -/
theorem parsePlDate_format {y m d : Nat} (hd : d < 100) (hm : m < 100)
    (hy1 : 1000 ≤ y) (hy2 : y < 10000) :
    parsePlDate (formatPlDate ⟨y, m, d⟩) =
      (if utcRoundTripValid y m d then Except.ok ⟨y, m, d⟩
       else Except.error "INVALID_DATE_FORMAT") := by
  unfold parsePlDate
  rw [formatPlDate_data hd hm hy1 hy2]
  simp only [jsTrimL, List.dropWhile_cons, jsIsWs_digCh, Bool.false_eq_true, if_false,
    List.reverse_cons, List.reverse_nil, List.nil_append, List.cons_append, List.append_nil]
  have rd : 10 * digVal (digCh (d / 10)) + digVal (digCh (d % 10)) = d := by
    rw [digVal_digCh (by omega), digVal_digCh (by omega)]; omega
  have rm : 10 * digVal (digCh (m / 10)) + digVal (digCh (m % 10)) = m := by
    rw [digVal_digCh (by omega), digVal_digCh (by omega)]; omega
  have ry : 1000 * digVal (digCh (y / 1000)) + 100 * digVal (digCh (y / 100 % 10)) +
      10 * digVal (digCh (y / 10 % 10)) + digVal (digCh (y % 10)) = y := by
    rw [digVal_digCh (by omega), digVal_digCh (by omega), digVal_digCh (by omega),
      digVal_digCh (by omega)]
    omega
  rw [rd, rm, ry]
  simp [isDigitC_digCh]

/-! ## Claim C8 — config date parsing round-trip -/

/-- C8, counterexample: the round-trip fails on a calendar-valid
`DD.MM.YYYY` string whose year field has a leading zero.  `"01.01.0150"`
denotes the calendar-valid date 150-01-01 and parses successfully, but
formatting the parsed date yields `"01.01.150"` (the year is not padded),
which differs from the input and is itself rejected on re-parsing. -/
theorem plDate_roundtrip_counterexample :
    calendarValid 150 1 1 = true ∧
    parsePlDate "01.01.0150" = Except.ok ⟨150, 1, 1⟩ ∧
    formatPlDate ⟨150, 1, 1⟩ = "01.01.150" ∧
    ("01.01.150" : String) ≠ "01.01.0150" ∧
    parsePlDate "01.01.150" = Except.error "INVALID_DATE_FORMAT" :=
  ⟨rfl, rfl, rfl, by decide, rfl⟩

/-- C8 (amended): for every `DD.MM.YYYY` string whose year field has no
leading zero (year 1000–9999) and which denotes a strictly calendar-valid
date, parsing and then formatting reproduces the string — the string is
exactly `formatPlDate ⟨y, m, d⟩` of its components, which parses back to
`⟨y, m, d⟩` — and re-parsing the formatted result yields the same date;
calendar-invalid dates (e.g. `31.02.2024`) are rejected with an error. -/
theorem plDate_roundtrip_amended :
    ∀ y m d : Nat, 1000 ≤ y → y ≤ 9999 → m ≤ 99 → d ≤ 99 →
      (calendarValid y m d = true →
        parsePlDate (formatPlDate ⟨y, m, d⟩) = Except.ok ⟨y, m, d⟩) ∧
      (calendarValid y m d = false →
        parsePlDate (formatPlDate ⟨y, m, d⟩) = Except.error "INVALID_DATE_FORMAT") := by
  intro y m d hy1 hy2 hm hd
  rw [parsePlDate_format (by omega) (by omega) hy1 (by omega)]
  constructor
  · intro hval
    have hv : utcRoundTripValid y m d = true := by
      simp [utcRoundTripValid, hval]
      omega
    simp [hv]
  · intro hval
    have hv : utcRoundTripValid y m d = false := by
      simp [utcRoundTripValid, hval]
    simp [hv]

/-- C8, witness: the amended round-trip at 15.06.2024 (valid) and at
31.02.2024 (calendar-invalid, rejected). -/
theorem plDate_roundtrip_amended_witness :
    parsePlDate (formatPlDate ⟨2024, 6, 15⟩) = Except.ok ⟨2024, 6, 15⟩ ∧
    parsePlDate (formatPlDate ⟨2024, 2, 31⟩) = Except.error "INVALID_DATE_FORMAT" :=
  ⟨(plDate_roundtrip_amended 2024 6 15 (by decide) (by decide) (by decide) (by decide)).1
      (by decide),
   (plDate_roundtrip_amended 2024 2 31 (by decide) (by decide) (by decide) (by decide)).2
      (by decide)⟩

theorem natOfDigits_one {n : Nat} (h : n < 10) : natOfDigits [digCh n] = n := by
  simp [natOfDigits, digVal_digCh h]

theorem natOfDigits_two {n : Nat} (h : n < 100) :
    natOfDigits [digCh (n / 10), digCh (n % 10)] = n := by
  simp [natOfDigits, digVal_digCh (show n / 10 < 10 by omega),
    digVal_digCh (show n % 10 < 10 by omega)]
  omega

/-- `hmsToSeconds` on a well-formed two-component value: minutes·60 +
seconds. -/
theorem hms_two {a b : Nat} (ha : a ≤ 99) (hb : b ≤ 99) :
    hmsToSeconds (jsNatToString a ++ ":" ++ pad2 b) = some (a * 60 + b) := by
  have hcolon : isDigitC ':' = false := rfl
  have hwc : jsIsWs ':' = false := rfl
  unfold hmsToSeconds
  rw [String.data_append, String.data_append, pad2_data (by omega)]
  by_cases h10 : a < 10
  · rw [jsNatDigits_one h10]
    simp [jsTrimL, jsIsWs_digCh, hwc, List.span_eq_take_drop, isDigitC_digCh, hcolon,
      natOfDigits_one h10, natOfDigits_two (show b < 100 by omega)]
  · rw [jsNatDigits_two (by omega) (by omega)]
    simp [jsTrimL, jsIsWs_digCh, hwc, List.span_eq_take_drop, isDigitC_digCh, hcolon,
      natOfDigits_two (show a < 100 by omega), natOfDigits_two (show b < 100 by omega)]

/-- `hmsToSeconds` on a well-formed three-component value: the first
component counts hours. -/
theorem hms_three {a b c : Nat} (ha : a ≤ 99) (hb : b ≤ 99) (hc : c ≤ 99) :
    hmsToSeconds (jsNatToString a ++ ":" ++ pad2 b ++ ":" ++ pad2 c) =
      some (a * 3600 + b * 60 + c) := by
  have hcolon : isDigitC ':' = false := rfl
  have hwc : jsIsWs ':' = false := rfl
  unfold hmsToSeconds
  rw [String.data_append, String.data_append, String.data_append, String.data_append,
    pad2_data (show b < 100 by omega), pad2_data (show c < 100 by omega)]
  by_cases h10 : a < 10
  · rw [jsNatDigits_one h10]
    simp [jsTrimL, jsIsWs_digCh, hwc, List.span_eq_take_drop, isDigitC_digCh, hcolon,
      natOfDigits_one h10, natOfDigits_two (show b < 100 by omega),
      natOfDigits_two (show c < 100 by omega)]
  · rw [jsNatDigits_two (by omega) (by omega)]
    simp [jsTrimL, jsIsWs_digCh, hwc, List.span_eq_take_drop, isDigitC_digCh, hcolon,
      natOfDigits_two (show a < 100 by omega), natOfDigits_two (show b < 100 by omega),
      natOfDigits_two (show c < 100 by omega)]

/-! ## Claim C3 — fetch retry policy -/

/-- C3: evaluation of the fetch loop.  The source loop runs
`attempt = 1 .. retries`, i.e. `retries` *total* attempts: with the
documented minimum `retries = 0` (accepted by the config validation) no
HTTP request is attempted at all and the function reports an http error
even though the server would answer 200 — contradicting the claim that the
initial request is always attempted and that a 200 body is returned.  The
remaining conjuncts show the retry classes and the distinct backoff bases
(2000ms · 2^(attempt−1) for 429; 1000ms · 2^(attempt−1) for 5xx and network
errors; no retry for other non-200 statuses). -/
theorem fetchHtml_retries_eval :
    fetchHtml (fun _ => .status 200 "ok") 0 =
      ⟨none, 1, 0, []⟩ ∧
    fetchHtml (fun _ => .status 200 "ok") 1 = ⟨some "ok", 0, 1, []⟩ ∧
    fetchHtml (fun _ => .status 429 "") 3 = ⟨none, 1, 3, [2000, 4000, 8000]⟩ ∧
    fetchHtml (fun _ => .status 503 "") 3 = ⟨none, 1, 3, [1000, 2000, 4000]⟩ ∧
    fetchHtml (fun _ => .netError) 3 = ⟨none, 1, 3, [1000, 2000, 4000]⟩ ∧
    fetchHtml (fun _ => .status 404 "") 3 = ⟨none, 1, 1, []⟩ ∧
    fetchHtml (fun n => if n < 2 then .netError else .status 200 "late") 3 =
      ⟨some "late", 0, 2, [1000]⟩ :=
  ⟨rfl, rfl, rfl, rfl, rfl, rfl, rfl⟩

/-! ## Claim C6 — release-date extraction -/

/-- C6, counterexample: the claim quantifies over every text *containing*
`"Released on May 3, 2024"`, but the extractor takes the leftmost match of
each pattern in turn, so a text with an earlier release phrase returns that
earlier date instead. -/
theorem extractReleaseDate_contains_counterexample :
    jsIncludes "Released on Jan 1, 2020 Released on May 3, 2024"
      "Released on May 3, 2024" = true ∧
    extractReleaseDateFromText "Released on Jan 1, 2020 Released on May 3, 2024" =
      some ⟨2020, 1, 1⟩ ∧
    (some (⟨2020, 1, 1⟩ : YMD) ≠ some (⟨2024, 5, 3⟩ : YMD)) :=
  ⟨rfl, rfl, by decide⟩

/-- C6 (amended): for a text whose earliest release-pattern match is
`"Released on May 3, 2024"` — in particular that string itself — the
extractor returns 2024-05-03; `"Released on 5/3/24"` also yields
2024-05-03; and numeric parsing tries the month-first and the day-first
reading of `p/q/…` in that order, returning whichever is calendar-valid,
with the month-first reading preferred when both are valid. -/
theorem extractReleaseDate_amended :
    extractReleaseDateFromText "Released on May 3, 2024" = some ⟨2024, 5, 3⟩ ∧
    extractReleaseDateFromText "Released on 5/3/24" = some ⟨2024, 5, 3⟩ ∧
    (∀ p q y, utcRoundTripValid y p q = true →
       firstValidYMD (usVariants p q y) = some ⟨y, p, q⟩) ∧
    (∀ p q y, utcRoundTripValid y p q = false → utcRoundTripValid y q p = true →
       firstValidYMD (usVariants p q y) = some ⟨y, q, p⟩) ∧
    (∀ p q y, utcRoundTripValid y p q = false → utcRoundTripValid y q p = false →
       firstValidYMD (usVariants p q y) = none) := by
  refine ⟨rfl, rfl, ?_, ?_, ?_⟩
  · intro p q y h
    simp [usVariants, firstValidYMD, h]
  · intro p q y h1 h2
    simp [usVariants, firstValidYMD, h1, h2]
  · intro p q y h1 h2
    simp [usVariants, firstValidYMD, h1, h2]

/-- C6, witness: the variant choice at concrete inputs — 5/3 month-first
(both readings valid), 31/1 day-first (month-first invalid), 13/13 neither. -/
theorem extractReleaseDate_amended_witness :
    firstValidYMD (usVariants 5 3 2024) = some ⟨2024, 5, 3⟩ ∧
    firstValidYMD (usVariants 31 1 2024) = some ⟨2024, 1, 31⟩ ∧
    firstValidYMD (usVariants 13 13 2024) = none :=
  ⟨extractReleaseDate_amended.2.2.1 5 3 2024 (by decide),
   extractReleaseDate_amended.2.2.2.1 31 1 2024 (by decide) (by decide),
   extractReleaseDate_amended.2.2.2.2 13 13 2024 (by decide) (by decide)⟩

/-! ## Claim C9 — genre normalisation -/

/-- C9, counterexample: when the genre line carries no value, the genre is
taken verbatim from the following tag line, skipping all normalisation —
the returned value keeps its `/` delimiter, and although it begins with
`classical` (case-insensitively) it is not rewritten to `"Classical"`. -/
theorem genre_tagFallback_counterexample :
    parseAlbumFirstGenre "About the album\nGenre:\nClassical / Opera\nTotal length: 45:00" =
      some "Classical / Opera" ∧
    jsStartsWith (jsToLowerStr "Classical / Opera") "classical" = true ∧
    ("Classical / Opera" : String) ≠ "Classical" ∧
    jsIncludes "Classical / Opera" "/" = true :=
  ⟨rfl, rfl, by decide, rfl⟩

/-- C9 (amended): a genre value read from a genre line that itself carries
a value is normalised — a (case-insensitive) `classical` prefix yields
exactly `"Classical"`, a delimited value is cut to the trimmed segment
before its first delimiter (delimiters tried in the order `/`, `,`, `|`,
`›`, `>`), and an undelimited value is cut to its first space-separated
token — but a genre taken from a following tag line (when the genre line
has no value of its own) is returned unnormalised. -/
theorem genre_normalization_amended :
    (∀ raw : List Char, "classical".data.isPrefixOf (toLowerL raw) = true →
       normalizeRawGenre raw = some "Classical") ∧
    normalizeRawGenre "Jazz / Fusion".data = some "Jazz" ∧
    normalizeRawGenre "Rock, Pop | Other".data = some "Rock" ∧
    normalizeRawGenre "Electro House".data = some "Electro" ∧
    parseAlbumFirstGenre "About the album\nGenre: Baroque / Opera\nX" = some "Baroque" ∧
    parseAlbumFirstGenre "About the album\nGenre:\nJazz / Fusion\nX" = some "Jazz / Fusion" := by
  refine ⟨?_, rfl, rfl, rfl, rfl, rfl⟩
  intro raw h
  simp [normalizeRawGenre, h]

/-- C9, witness: the classical-prefix rule of the amended claim at a
concrete raw value. -/
theorem genre_normalization_amended_witness :
    normalizeRawGenre "Classical music".data = some "Classical" :=
  genre_normalization_amended.1 "Classical music".data (by decide)

/-! ## Claim C7 — duration requirement and conversion -/

/-- C7, counterexample: the claim reads a two-component `H:MM` as
hours/minutes, but `hmsToSeconds` treats a two-component value as
minutes:seconds — a page whose duration is `1:30` produces
`total_seconds = 90`, not `1*3600 + 30*60`. -/
theorem parseAlbumDetails_twoComponent_counterexample :
    (parseAlbumDetails ⟨"Some Album", [], "Total length: 1:30"⟩).map
        (fun det => det.total_seconds) = some 90 ∧
    (90 : Nat) ≠ 1 * 3600 + 30 * 60 :=
  ⟨rfl, by decide⟩

/-- C7 (amended): `parseAlbumDetails` returns none whenever the page text
has no `Total length:` duration match, and every record it produces carries
`total_seconds = hmsToSeconds` of the matched value — which converts a
three-component `H:MM:SS` as `H*3600 + MM*60 + SS` and a two-component
`M:SS` as `M*60 + SS` (the first component of a two-component value counts
minutes, not hours). -/
theorem parseAlbumDetails_duration_amended :
    (∀ page : AlbumPage, durationFirstMatch page.pageText = none →
       parseAlbumDetails page = none) ∧
    (∀ page det, parseAlbumDetails page = some det →
       ∃ cap, durationFirstMatch page.pageText = some cap ∧
         hmsToSeconds (jsTrimStr cap) = some det.total_seconds) ∧
    (∀ a b, a ≤ 99 → b ≤ 99 →
       hmsToSeconds (jsNatToString a ++ ":" ++ pad2 b) = some (a * 60 + b)) ∧
    (∀ a b c, a ≤ 99 → b ≤ 99 → c ≤ 99 →
       hmsToSeconds (jsNatToString a ++ ":" ++ pad2 b ++ ":" ++ pad2 c) =
         some (a * 3600 + b * 60 + c)) := by
  refine ⟨?_, ?_, fun a b ha hb => hms_two ha hb, fun a b c ha hb hc => hms_three ha hb hc⟩
  · intro page h
    simp [parseAlbumDetails, h]
  · intro page det h
    unfold parseAlbumDetails at h
    cases hdm : durationFirstMatch page.pageText with
    | none => simp only [hdm] at h; exact Option.noConfusion h
    | some cap =>
      simp only [hdm] at h
      refine ⟨cap, rfl, ?_⟩
      cases hs : hmsToSeconds (jsTrimStr cap) with
      | none => simp only [hs] at h; exact Option.noConfusion h
      | some secs =>
        simp only [hs] at h
        split at h
        · simp at h
        · simp only [Option.some.injEq] at h
          rw [← h]

/-- C7, witness: the amended conversion rules at concrete durations, and
the rejection of a page without a duration. -/
theorem parseAlbumDetails_duration_amended_witness :
    parseAlbumDetails ⟨"Some Album", [], "no duration on this page"⟩ = none ∧
    hmsToSeconds (jsNatToString 1 ++ ":" ++ pad2 30) = some 90 ∧
    hmsToSeconds (jsNatToString 1 ++ ":" ++ pad2 13 ++ ":" ++ pad2 4) = some 4384 :=
  ⟨parseAlbumDetails_duration_amended.1 ⟨"Some Album", [], "no duration on this page"⟩ rfl,
   parseAlbumDetails_duration_amended.2.2.1 1 30 (by decide) (by decide),
   parseAlbumDetails_duration_amended.2.2.2 1 13 4 (by decide) (by decide) (by decide)⟩

/-! ## Claim C10 — non-empty identity requirement -/

/-- C10: `parseAlbumDetails` returns none when both the extracted title and
the extracted main-artists value are empty — even with a valid duration —
so every produced record has a non-empty title or non-empty main artists. -/
theorem parseAlbumDetails_identity_required :
    (∀ page : AlbumPage, albumTitle page = [] → albumMainArtists page = [] →
       parseAlbumDetails page = none) ∧
    (∀ page det, parseAlbumDetails page = some det →
       det.title ≠ "" ∨ det.main_artists ≠ "") := by
  constructor
  · intro page h1 h2
    unfold parseAlbumDetails
    rw [h1, h2]
    cases hdm : durationFirstMatch page.pageText with
    | none => simp [hdm]
    | some cap =>
      cases hs : hmsToSeconds (jsTrimStr cap) with
      | none => simp [hdm, hs]
      | some secs => simp [hdm, hs]
  · intro page det h
    unfold parseAlbumDetails at h
    cases hdm : durationFirstMatch page.pageText with
    | none => simp only [hdm] at h; exact Option.noConfusion h
    | some cap =>
      simp only [hdm] at h
      cases hs : hmsToSeconds (jsTrimStr cap) with
      | none => simp only [hs] at h; exact Option.noConfusion h
      | some secs =>
        simp only [hs] at h
        split at h
        · simp at h
        · next hcond =>
          simp only [Option.some.injEq] at h
          rw [← h]
          simp only [Bool.and_eq_true, List.isEmpty_iff, not_and] at hcond
          by_cases ht : albumTitle page = []
          · right
            intro hcontra
            exact hcond ht (by simpa [String.ext_iff] using hcontra)
          · left
            intro hcontra
            exact ht (by simpa [String.ext_iff] using hcontra)

/-- C10, witness: a page with empty title and artists but a valid duration
is rejected; a page with a title yields a record with non-empty identity. -/
theorem parseAlbumDetails_identity_required_witness :
    parseAlbumDetails ⟨"", [], "Total length: 20:00"⟩ = none ∧
    (("T" : String) ≠ "" ∨ ("" : String) ≠ "") :=
  ⟨parseAlbumDetails_identity_required.1 ⟨"", [], "Total length: 20:00"⟩ rfl rfl,
   parseAlbumDetails_identity_required.2 ⟨"T", [], "Total length: 20:00"⟩
     ⟨"T", "", "20:00", 1200, none, none⟩ rfl⟩

/-! ## Claim C2 — fixed filter-stage order and rejection counters -/

/-- The missing-date report line of a processed candidate exists exactly
when the detail page had no release date. -/
theorem processCandidate_row (cfg : Config) (st : Stats) (cand : Candidate)
    (det : AlbumDetails) :
    (processCandidate cfg st cand det).2.2 =
      (if det.release_date_album.isNone then some (missingRowFor cand det) else none) := by
  rcases hrda : det.release_date_album with _ | d
  · by_cases hg : genrePassB cfg det <;> by_cases hl : lengthFailB cfg det <;>
      simp [processCandidate, finishCandidate, hrda, hg, hl]
  · by_cases hout : (ymdLtB d cfg.date_from || ymdLtB cfg.date_to d) = true
    · simp [processCandidate, hrda, hout]
    · by_cases hg : genrePassB cfg det <;> by_cases hl : lengthFailB cfg det <;>
        simp [processCandidate, finishCandidate, hrda, hout, hg, hl]

/-- C2: for candidates with parsed AlbumDetails the stages run in the fixed
order date-mismatch → genre → length.  (A/B/D) give the full result of each
rejection as an equation whose right-hand side does not mention the later
stages' inputs — an earlier rejection is thus independent of them — and
(C/E) the same for the missing-date branches; (F) an accepted candidate
leaves all three rejection counters unchanged; (G) a rejected one
increments exactly one of them. -/
theorem filter_stage_order :
    ∀ (cfg : Config) (st : Stats) (cand : Candidate) (det : AlbumDetails),
      (∀ d, det.release_date_album = some d →
        (ymdLtB d cfg.date_from || ymdLtB cfg.date_to d) = true →
        processCandidate cfg st cand det =
          ({ st with rejectedByDateMismatch := st.rejectedByDateMismatch + 1 },
           none, none)) ∧
      (∀ d, det.release_date_album = some d →
        (ymdLtB d cfg.date_from || ymdLtB cfg.date_to d) = false →
        genrePassB cfg det = false →
        processCandidate cfg st cand det =
          ({ st with rejectedByGenre := st.rejectedByGenre + 1 }, none, none)) ∧
      (det.release_date_album = none → genrePassB cfg det = false →
        processCandidate cfg st cand det =
          ({ st with missingAlbumDate := st.missingAlbumDate + 1,
                     rejectedByGenre := st.rejectedByGenre + 1 },
           none, some (missingRowFor cand det))) ∧
      (∀ d, det.release_date_album = some d →
        (ymdLtB d cfg.date_from || ymdLtB cfg.date_to d) = false →
        genrePassB cfg det = true → lengthFailB cfg det = true →
        processCandidate cfg st cand det =
          ({ st with rejectedByLength := st.rejectedByLength + 1 }, none, none)) ∧
      (det.release_date_album = none →
        genrePassB cfg det = true → lengthFailB cfg det = true →
        processCandidate cfg st cand det =
          ({ st with missingAlbumDate := st.missingAlbumDate + 1,
                     rejectedByLength := st.rejectedByLength + 1 },
           none, some (missingRowFor cand det))) ∧
      (∀ r, (processCandidate cfg st cand det).2.1 = some r →
        (processCandidate cfg st cand det).1.rejectedByDateMismatch =
            st.rejectedByDateMismatch ∧
        (processCandidate cfg st cand det).1.rejectedByGenre = st.rejectedByGenre ∧
        (processCandidate cfg st cand det).1.rejectedByLength = st.rejectedByLength) ∧
      ((processCandidate cfg st cand det).2.1 = none →
        ((processCandidate cfg st cand det).1.rejectedByDateMismatch =
              st.rejectedByDateMismatch + 1 ∧
          (processCandidate cfg st cand det).1.rejectedByGenre = st.rejectedByGenre ∧
          (processCandidate cfg st cand det).1.rejectedByLength = st.rejectedByLength) ∨
        ((processCandidate cfg st cand det).1.rejectedByDateMismatch =
              st.rejectedByDateMismatch ∧
          (processCandidate cfg st cand det).1.rejectedByGenre = st.rejectedByGenre + 1 ∧
          (processCandidate cfg st cand det).1.rejectedByLength = st.rejectedByLength) ∨
        ((processCandidate cfg st cand det).1.rejectedByDateMismatch =
              st.rejectedByDateMismatch ∧
          (processCandidate cfg st cand det).1.rejectedByGenre = st.rejectedByGenre ∧
          (processCandidate cfg st cand det).1.rejectedByLength = st.rejectedByLength + 1)) := by
  intro cfg st cand det
  refine ⟨?_, ?_, ?_, ?_, ?_, ?_, ?_⟩
  · intro d hd hout
    simp [processCandidate, hd, hout]
  · intro d hd hout hg
    simp [processCandidate, finishCandidate, hd, hout, hg]
  · intro hd hg
    simp [processCandidate, finishCandidate, hd, hg]
  · intro d hd hout hg hl
    simp [processCandidate, finishCandidate, hd, hout, hg, hl]
  · intro hd hg hl
    simp [processCandidate, finishCandidate, hd, hg, hl]
  · intro r h
    rcases hrda : det.release_date_album with _ | d
    · by_cases hg : genrePassB cfg det <;> by_cases hl : lengthFailB cfg det <;>
        simp [processCandidate, finishCandidate, hrda, hg, hl] at h ⊢
    · by_cases hout : (ymdLtB d cfg.date_from || ymdLtB cfg.date_to d) = true
      · simp [processCandidate, hrda, hout] at h
      · by_cases hg : genrePassB cfg det <;> by_cases hl : lengthFailB cfg det <;>
          simp [processCandidate, finishCandidate, hrda, hout, hg, hl] at h ⊢
  · intro h
    rcases hrda : det.release_date_album with _ | d
    · by_cases hg : genrePassB cfg det <;> by_cases hl : lengthFailB cfg det <;>
        simp [processCandidate, finishCandidate, hrda, hg, hl] at h ⊢
    · by_cases hout : (ymdLtB d cfg.date_from || ymdLtB cfg.date_to d) = true
      · simp [processCandidate, hrda, hout]
      · by_cases hg : genrePassB cfg det <;> by_cases hl : lengthFailB cfg det <;>
          simp [processCandidate, finishCandidate, hrda, hout, hg, hl] at h ⊢

/-- C2, witness: the stage equations at concrete inputs — a candidate whose
detail date is out of range and whose genre and length would also fail is
counted only under `rejectedByDateMismatch`; genre-stage and length-stage
rejections and an acceptance follow. -/
theorem filter_stage_order_witness :
    processCandidate ⟨⟨2024, 1, 1⟩, ⟨2024, 1, 31⟩, "Classical", 15⟩ {}
        ⟨"u", "L", ⟨2024, 1, 10⟩⟩ ⟨"T", "A", "0:10", 10, some ⟨2024, 2, 15⟩, some "Jazz"⟩ =
      ({ ({} : Stats) with rejectedByDateMismatch := 1 }, none, none) ∧
    processCandidate ⟨⟨2024, 1, 1⟩, ⟨2024, 1, 31⟩, "Classical", 15⟩ {}
        ⟨"u", "L", ⟨2024, 1, 10⟩⟩ ⟨"T", "A", "50:00", 3000, some ⟨2024, 1, 15⟩, some "Jazz"⟩ =
      ({ ({} : Stats) with rejectedByGenre := 1 }, none, none) ∧
    processCandidate ⟨⟨2024, 1, 1⟩, ⟨2024, 1, 31⟩, "Classical", 15⟩ {}
        ⟨"u", "L", ⟨2024, 1, 10⟩⟩ ⟨"T", "A", "0:10", 10, some ⟨2024, 1, 15⟩, some "Classical"⟩ =
      ({ ({} : Stats) with rejectedByLength := 1 }, none, none) ∧
    (processCandidate ⟨⟨2024, 1, 1⟩, ⟨2024, 1, 31⟩, "Classical", 15⟩ {}
        ⟨"u", "L", ⟨2024, 1, 10⟩⟩
        ⟨"T", "A", "50:00", 3000, some ⟨2024, 1, 15⟩, some "Classical"⟩).1.rejectedByGenre = 0 := by
  have h1 := (filter_stage_order ⟨⟨2024, 1, 1⟩, ⟨2024, 1, 31⟩, "Classical", 15⟩ {}
      ⟨"u", "L", ⟨2024, 1, 10⟩⟩ ⟨"T", "A", "0:10", 10, some ⟨2024, 2, 15⟩, some "Jazz"⟩).1
      ⟨2024, 2, 15⟩ rfl (by decide)
  have h2 := (filter_stage_order ⟨⟨2024, 1, 1⟩, ⟨2024, 1, 31⟩, "Classical", 15⟩ {}
      ⟨"u", "L", ⟨2024, 1, 10⟩⟩ ⟨"T", "A", "50:00", 3000, some ⟨2024, 1, 15⟩, some "Jazz"⟩).2.1
      ⟨2024, 1, 15⟩ rfl (by decide) (by decide)
  have h3 := (filter_stage_order ⟨⟨2024, 1, 1⟩, ⟨2024, 1, 31⟩, "Classical", 15⟩ {}
      ⟨"u", "L", ⟨2024, 1, 10⟩⟩
      ⟨"T", "A", "0:10", 10, some ⟨2024, 1, 15⟩, some "Classical"⟩).2.2.2.1
      ⟨2024, 1, 15⟩ rfl (by decide) (by decide) (by decide)
  have h4 := ((filter_stage_order ⟨⟨2024, 1, 1⟩, ⟨2024, 1, 31⟩, "Classical", 15⟩ {}
      ⟨"u", "L", ⟨2024, 1, 10⟩⟩
      ⟨"T", "A", "50:00", 3000, some ⟨2024, 1, 15⟩, some "Classical"⟩).2.2.2.2.2.1
      ⟨"T", "A", "L", "u", ⟨2024, 1, 15⟩⟩ rfl).2.1
  exact ⟨h1, h2, h3, h4⟩

/-! ## Claim C4 — missing detail date: listing-date fallback -/

/-- C4: a candidate whose parsed AlbumDetails has no detail release date
uses the listing date as final date with *no* range check (nothing about
the listing date is assumed, and `rejectedByDateMismatch` is untouched),
increments `missingAlbumDate`, and contributes exactly one missing-date
report line `label \t album_url \t listing date \t title \t artists`; over a
whole run, the report has exactly one line per such candidate. -/
theorem missing_date_fallback :
    (∀ (cfg : Config) (st : Stats) (cand : Candidate) (det : AlbumDetails),
      det.release_date_album = none →
        (processCandidate cfg st cand det).1.missingAlbumDate = st.missingAlbumDate + 1 ∧
        (processCandidate cfg st cand det).1.rejectedByDateMismatch =
          st.rejectedByDateMismatch ∧
        (processCandidate cfg st cand det).2.2 = some (missingRowFor cand det) ∧
        missingRowFor cand det =
          cand.label_name ++ "\t" ++ cand.album_url ++ "\t" ++
            formatPlDate cand.release_date_listing ++ "\t" ++ det.title ++ "\t" ++
            det.main_artists ∧
        (genrePassB cfg det = true → lengthFailB cfg det = false →
          (processCandidate cfg st cand det).2.1 =
            some ⟨det.title, det.main_artists, cand.label_name, cand.album_url,
                  cand.release_date_listing⟩)) ∧
    (∀ (cfg : Config) (st : Stats) (items : List (Candidate × Option AlbumDetails)),
      (detailPhase cfg st items).2.2.length =
        List.countP (fun det => det.release_date_album.isNone)
          (items.filterMap fun p => p.2)) := by
  constructor
  · intro cfg st cand det h
    by_cases hg : genrePassB cfg det <;> by_cases hl : lengthFailB cfg det <;>
      simp [processCandidate, finishCandidate, missingRowFor, h, hg, hl]
  · intro cfg st items
    suffices hgen : ∀ (items : List (Candidate × Option AlbumDetails))
        (acc : Stats × List AcceptedRecord × List String),
        ((items.foldl (detailStep cfg) acc).2.2).length =
          acc.2.2.length + List.countP (fun det => det.release_date_album.isNone)
            (items.filterMap fun p => p.2) by
      simpa [detailPhase] using hgen items (st, [], [])
    intro items
    induction items with
    | nil => simp
    | cons p rest ih =>
      intro acc
      rw [List.foldl_cons, ih]
      rcases p with ⟨cand, pd⟩
      rcases pd with _ | det
      · simp [detailStep]
      · have hrow := processCandidate_row cfg
          { acc.1 with albumsFetched := acc.1.albumsFetched + 1 } cand det
        rcases hres : processCandidate cfg
            { acc.1 with albumsFetched := acc.1.albumsFetched + 1 } cand det
          with ⟨st', rec, row⟩
        rw [hres] at hrow
        rcases hrda : det.release_date_album with _ | d
        · rw [hrda] at hrow
          simp only [Option.isNone_none, if_true] at hrow
          simp [detailStep, hres, hrow, hrda, List.countP_cons]
          omega
        · rw [hrda] at hrow
          simp only [Option.isNone_some, Bool.false_eq_true, if_false] at hrow
          simp [detailStep, hres, hrow, hrda, List.countP_cons]

/-- C4, witness: the fallback at a concrete candidate whose listing date is
*outside* the configured range (showing no range check is applied), with
the report line spelled out. -/
theorem missing_date_fallback_witness :
    (processCandidate ⟨⟨2024, 1, 1⟩, ⟨2024, 1, 31⟩, "Classical", 15⟩ {}
        ⟨"https://q/album/x", "LabelA", ⟨2030, 6, 1⟩⟩
        ⟨"T", "A", "50:00", 3000, none, some "Classical"⟩).1.missingAlbumDate = 0 + 1 ∧
    (processCandidate ⟨⟨2024, 1, 1⟩, ⟨2024, 1, 31⟩, "Classical", 15⟩ {}
        ⟨"https://q/album/x", "LabelA", ⟨2030, 6, 1⟩⟩
        ⟨"T", "A", "50:00", 3000, none, some "Classical"⟩).2.1 =
      some ⟨"T", "A", "LabelA", "https://q/album/x", ⟨2030, 6, 1⟩⟩ ∧
    missingRowFor ⟨"https://q/album/x", "LabelA", ⟨2030, 6, 1⟩⟩
        ⟨"T", "A", "50:00", 3000, none, some "Classical"⟩ =
      "LabelA" ++ "\t" ++ "https://q/album/x" ++ "\t" ++ formatPlDate ⟨2030, 6, 1⟩ ++
        "\t" ++ "T" ++ "\t" ++ "A" := by
  have h := missing_date_fallback.1 ⟨⟨2024, 1, 1⟩, ⟨2024, 1, 31⟩, "Classical", 15⟩ {}
    ⟨"https://q/album/x", "LabelA", ⟨2030, 6, 1⟩⟩
    ⟨"T", "A", "50:00", 3000, none, some "Classical"⟩ rfl
  exact ⟨h.1, h.2.2.2.2 (by decide) (by decide), h.2.2.2.1⟩

/-! ## Claim C1 — accepted release dates lie in the configured range -/

theorem ymdLe_of_not_lt {a b : YMD} (h : ymdLtB a b = false) : ymdLeB b a = true := by
  simp [ymdLtB] at h
  simp [ymdLeB]
  omega

/-- An accepted record's date is either the candidate's listing date or a
detail date that passed the range check. -/
theorem processCandidate_accept_date (cfg : Config) (st : Stats) (cand : Candidate)
    (det : AlbumDetails) (r : AcceptedRecord) :
    (processCandidate cfg st cand det).2.1 = some r →
    r.release_date = cand.release_date_listing ∨
      (ymdLtB r.release_date cfg.date_from = false ∧
        ymdLtB cfg.date_to r.release_date = false) := by
  intro h
  rcases hrda : det.release_date_album with _ | d
  · by_cases hg : genrePassB cfg det <;> by_cases hl : lengthFailB cfg det <;>
      simp [processCandidate, finishCandidate, hrda, hg, hl] at h
    left
    subst h
    rfl
  · by_cases hout : (ymdLtB d cfg.date_from || ymdLtB cfg.date_to d) = true
    · simp [processCandidate, hrda, hout] at h
    · by_cases hg : genrePassB cfg det <;> by_cases hl : lengthFailB cfg det <;>
        simp [processCandidate, finishCandidate, hrda, hout, hg, hl] at h
      right
      subst h
      simpa using hout

/-- C1: candidates are created by the listing loop only with an in-range
listing date, and every record accepted by the detail phase — whether it
kept the detail-page date (range-checked) or fell back to the candidate's
listing date — has its release date inside `[date_from, date_to]`. -/
theorem accepted_release_date_in_range :
    (∀ (startD endD : YMD) (lbl : String) (seen : List String) (st : Stats)
        (links : List ListingLink) (c : Candidate),
        c ∈ (listingGo startD endD lbl seen st links).1 →
        (ymdLeB startD c.release_date_listing &&
          ymdLeB c.release_date_listing endD) = true) ∧
    (∀ (cfg : Config) (st : Stats) (items : List (Candidate × Option AlbumDetails)),
        (∀ p ∈ items, (ymdLeB cfg.date_from p.1.release_date_listing &&
            ymdLeB p.1.release_date_listing cfg.date_to) = true) →
        ∀ r ∈ (detailPhase cfg st items).2.1,
          (ymdLeB cfg.date_from r.release_date &&
            ymdLeB r.release_date cfg.date_to) = true) := by
  constructor
  · intro startD endD lbl seen st links
    induction links generalizing seen st with
    | nil => intro c hc; simp [listingGo] at hc
    | cons link rest ih =>
      intro c hc
      by_cases hhref : jsIncludes link.href "/album/"
      · by_cases hseen : seen.contains link.albumUrl
        · simp only [listingGo, hhref, hseen, Bool.not_true, Bool.false_eq_true,
            if_false, if_true] at hc
          exact ih seen st c hc
        · rcases hrel : link.rel with d | _ | _
          · by_cases hin : (ymdLeB startD d && ymdLeB d endD) = true
            · rcases hres : listingGo startD endD lbl (link.albumUrl :: seen) st rest
                with ⟨cs, st'⟩
              simp only [listingGo, hhref, hseen, hrel, hin, hres, Bool.not_true,
                Bool.false_eq_true, if_false, if_true, List.mem_cons] at hc
              rcases hc with rfl | hc
              · exact hin
              · have := ih (link.albumUrl :: seen) st c
                rw [hres] at this
                exact this hc
            · simp only [listingGo, hhref, hseen, hrel, hin, Bool.not_true,
                Bool.false_eq_true, if_false, if_true] at hc
              exact ih (link.albumUrl :: seen) st c hc
          · simp only [listingGo, hhref, hseen, hrel, Bool.not_true,
              Bool.false_eq_true, if_false, if_true] at hc
            exact ih (link.albumUrl :: seen) st c hc
          · simp only [listingGo, hhref, hseen, hrel, Bool.not_true,
              Bool.false_eq_true, if_false, if_true] at hc
            exact ih (link.albumUrl :: seen)
              { st with parseErrors := st.parseErrors + 1 } c hc
      · simp only [listingGo, hhref, Bool.not_false, if_true] at hc
        exact ih seen st c hc
  · intro cfg st items hitems
    suffices hgen : ∀ (items : List (Candidate × Option AlbumDetails))
        (acc : Stats × List AcceptedRecord × List String),
        (∀ p ∈ items, (ymdLeB cfg.date_from p.1.release_date_listing &&
            ymdLeB p.1.release_date_listing cfg.date_to) = true) →
        (∀ r ∈ acc.2.1, (ymdLeB cfg.date_from r.release_date &&
            ymdLeB r.release_date cfg.date_to) = true) →
        ∀ r ∈ (items.foldl (detailStep cfg) acc).2.1,
          (ymdLeB cfg.date_from r.release_date &&
            ymdLeB r.release_date cfg.date_to) = true by
      intro r hr
      exact hgen items (st, [], []) hitems (by simp) r (by simpa [detailPhase] using hr)
    intro items
    induction items with
    | nil => intro acc _ hacc r hr; exact hacc r hr
    | cons p rest ih =>
      intro acc hps hacc r hr
      rw [List.foldl_cons] at hr
      refine ih (detailStep cfg acc p) (fun q hq => hps q (List.mem_cons_of_mem p hq))
        ?_ r hr
      intro r' hr'
      rcases p with ⟨cand, pd⟩
      rcases pd with _ | det
      · exact hacc r' hr'
      · rcases hres : processCandidate cfg
            { acc.1 with albumsFetched := acc.1.albumsFetched + 1 } cand det
          with ⟨st', rec, row⟩
        simp only [detailStep, hres] at hr'
        rcases List.mem_append.1 hr' with hmem | hmem
        · exact hacc r' hmem
        · rcases rec with _ | r''
          · simp at hmem
          · simp only [Option.toList_some, List.mem_singleton] at hmem
            subst hmem
            have hdate := processCandidate_accept_date cfg
              { acc.1 with albumsFetched := acc.1.albumsFetched + 1 } cand det r'
              (by rw [hres])
            rcases hdate with hdate | ⟨hlo, hhi⟩
            · rw [hdate]
              exact hps (cand, some det) (List.mem_cons_self _ _)
            · simp [ymdLe_of_not_lt hlo, ymdLe_of_not_lt hhi]

/-- C1, witness: the range invariant at a concrete listing page and a
concrete detail phase containing an in-range detail date and a listing-date
fallback. -/
theorem accepted_release_date_in_range_witness :
    (ymdLeB ⟨2024, 1, 1⟩ ⟨2024, 1, 10⟩ && ymdLeB ⟨2024, 1, 10⟩ ⟨2024, 1, 31⟩) = true ∧
    (ymdLeB ⟨2024, 1, 1⟩ ⟨2024, 1, 12⟩ && ymdLeB ⟨2024, 1, 12⟩ ⟨2024, 1, 31⟩) = true := by
  have hlist := accepted_release_date_in_range.1 ⟨2024, 1, 1⟩ ⟨2024, 1, 31⟩ "Lbl" [] {}
    [⟨"/album/a", "https://q/album/a", .found ⟨2024, 1, 10⟩⟩,
     ⟨"/album/b", "https://q/album/b", .found ⟨2024, 2, 15⟩⟩]
    ⟨"https://q/album/a", "Lbl", ⟨2024, 1, 10⟩⟩ (by decide)
  have hdet := accepted_release_date_in_range.2 ⟨⟨2024, 1, 1⟩, ⟨2024, 1, 31⟩, "Classical", 15⟩ {}
    [(⟨"https://q/album/a", "Lbl", ⟨2024, 1, 10⟩⟩,
      some ⟨"T", "A", "50:00", 3000, some ⟨2024, 1, 12⟩, some "Classical"⟩)]
    (by decide)
    ⟨"T", "A", "Lbl", "https://q/album/a", ⟨2024, 1, 12⟩⟩ (by decide)
  exact ⟨hlist, hdet⟩

/-! ## Claim C5 — deduplication: first record per key wins -/

theorem dedupGo_length (seen : List String) (rs : List AcceptedRecord) :
    (dedupGo seen rs).1.length + (dedupGo seen rs).2 = rs.length := by
  induction rs generalizing seen with
  | nil => simp [dedupGo]
  | cons r rest ih =>
    by_cases h : seen.contains (recKey r)
    · rcases hres : dedupGo seen rest with ⟨o, c⟩
      have hr := ih seen
      rw [hres] at hr
      simp only [dedupGo, h, if_true, hres] at hr ⊢
      simp at hr ⊢
      omega
    · rcases hres : dedupGo (recKey r :: seen) rest with ⟨o, c⟩
      have hr := ih (recKey r :: seen)
      rw [hres] at hr
      simp only [dedupGo, h, Bool.false_eq_true, if_false, hres] at hr ⊢
      simp at hr ⊢
      omega

theorem dedupGo_sublist (seen : List String) (rs : List AcceptedRecord) :
    List.Sublist (dedupGo seen rs).1 rs := by
  induction rs generalizing seen with
  | nil => simp [dedupGo]
  | cons r rest ih =>
    by_cases h : seen.contains (recKey r)
    · rcases hres : dedupGo seen rest with ⟨o, c⟩
      have hs := ih seen
      rw [hres] at hs
      simp only [dedupGo, h, if_true, hres]
      exact hs.cons r
    · rcases hres : dedupGo (recKey r :: seen) rest with ⟨o, c⟩
      have hs := ih (recKey r :: seen)
      rw [hres] at hs
      simp only [dedupGo, h, Bool.false_eq_true, if_false, hres]
      exact hs.cons₂ r

theorem dedupGo_first (seen : List String) (rs : List AcceptedRecord) :
    ∀ r ∈ (dedupGo seen rs).1,
      seen.contains (recKey r) = false ∧
      rs.find? (fun x => recKey x == recKey r) = some r := by
  induction rs generalizing seen with
  | nil => simp [dedupGo]
  | cons a rest ih =>
    intro r hr
    by_cases h : seen.contains (recKey a)
    · rcases hres : dedupGo seen rest with ⟨o, c⟩
      simp only [dedupGo, h, if_true, hres] at hr
      obtain ⟨hns, hfind⟩ := ih seen r (by rw [hres]; exact hr)
      have hne : (recKey a == recKey r) = false := by
        apply beq_eq_false_iff_ne.2
        intro he
        rw [he] at h
        rw [h] at hns
        exact Bool.noConfusion hns
      refine ⟨hns, ?_⟩
      rw [List.find?_cons, hne]
      exact hfind
    · rcases hres : dedupGo (recKey a :: seen) rest with ⟨o, c⟩
      simp only [dedupGo, h, Bool.false_eq_true, if_false, hres, List.mem_cons] at hr
      rcases hr with rfl | hr
      · refine ⟨by simpa using h, ?_⟩
        rw [List.find?_cons, beq_self_eq_true]
      · obtain ⟨hns, hfind⟩ := ih (recKey a :: seen) r (by rw [hres]; exact hr)
        simp only [List.contains_cons, Bool.or_eq_false_iff, beq_eq_false_iff_ne] at hns
        refine ⟨hns.2, ?_⟩
        rw [List.find?_cons, beq_eq_false_iff_ne.2 (fun he => hns.1 he.symm)]
        exact hfind

theorem dedupGo_pairwise (seen : List String) (rs : List AcceptedRecord) :
    (dedupGo seen rs).1.Pairwise (fun a b => recKey a ≠ recKey b) := by
  induction rs generalizing seen with
  | nil => simp [dedupGo]
  | cons a rest ih =>
    by_cases h : seen.contains (recKey a)
    · rcases hres : dedupGo seen rest with ⟨o, c⟩
      have hp := ih seen
      rw [hres] at hp
      simpa only [dedupGo, h, if_true, hres] using hp
    · rcases hres : dedupGo (recKey a :: seen) rest with ⟨o, c⟩
      have hp := ih (recKey a :: seen)
      rw [hres] at hp
      simp only [dedupGo, h, Bool.false_eq_true, if_false, hres]
      refine List.Pairwise.cons ?_ hp
      intro b hb
      obtain ⟨hns, _⟩ := dedupGo_first (recKey a :: seen) rest b (by rw [hres]; exact hb)
      simp only [List.contains_cons, Bool.or_eq_false_iff, beq_eq_false_iff_ne] at hns
      exact fun he => hns.1 he.symm

theorem dedupGo_complete (seen : List String) (rs : List AcceptedRecord) :
    ∀ x ∈ rs, (∃ r', r' ∈ (dedupGo seen rs).1 ∧ recKey r' = recKey x) ∨
      seen.contains (recKey x) = true := by
  induction rs generalizing seen with
  | nil => simp
  | cons a rest ih =>
    intro x hx
    by_cases h : seen.contains (recKey a)
    · rcases hres : dedupGo seen rest with ⟨o, c⟩
      rcases List.mem_cons.1 hx with rfl | hx'
      · right; exact h
      · rcases ih seen x hx' with ⟨r', hr', hk⟩ | hc
        · left
          exact ⟨r', by simp only [dedupGo, h, if_true, hres] at hr' ⊢; exact hr', hk⟩
        · right; exact hc
    · rcases hres : dedupGo (recKey a :: seen) rest with ⟨o, c⟩
      rcases List.mem_cons.1 hx with rfl | hx'
      · left
        refine ⟨x, ?_, rfl⟩
        simp only [dedupGo, h, Bool.false_eq_true, if_false, hres]
        exact List.mem_cons_self _ _
      · rcases ih (recKey a :: seen) x hx' with ⟨r', hr', hk⟩ | hc
        · left
          refine ⟨r', ?_, hk⟩
          simp only [dedupGo, h, Bool.false_eq_true, if_false, hres, List.mem_cons]
          right
          rw [hres] at hr'
          exact hr'
        · simp only [List.contains_cons, Bool.or_eq_true_iff] at hc
          rcases hc' : (recKey x == recKey a) with _ | _
          · rw [hc'] at hc
            right
            simpa using hc
          · left
            refine ⟨a, ?_, (beq_iff_eq.1 hc').symm⟩
            simp only [dedupGo, h, Bool.false_eq_true, if_false, hres]
            exact List.mem_cons_self _ _

/-- C5: deduplication keeps, in order, the first record for each
normalised `title||artists||label` key and drops every later record with
the same key: the output is a sublist of the input, pairwise distinct in
key, every kept record is the `find?`-first of its key, every input key
survives, and `duplicatesRemoved` counts exactly the dropped records
(input length minus output length); the stats pass records this count and
the output length. -/
theorem dedup_first_wins :
    ∀ recs : List AcceptedRecord,
      (dedupRecords recs).1.length + (dedupRecords recs).2 = recs.length ∧
      (dedupRecords recs).2 = recs.length - (dedupRecords recs).1.length ∧
      List.Sublist (dedupRecords recs).1 recs ∧
      (∀ r ∈ (dedupRecords recs).1,
        recs.find? (fun x => recKey x == recKey r) = some r) ∧
      (dedupRecords recs).1.Pairwise (fun a b => recKey a ≠ recKey b) ∧
      (∀ x ∈ recs, ∃ r', r' ∈ (dedupRecords recs).1 ∧ recKey r' = recKey x) ∧
      (∀ st : Stats,
        (dedupPhase st recs).1.duplicatesRemoved =
            st.duplicatesRemoved + (dedupRecords recs).2 ∧
        (dedupPhase st recs).1.accepted = (dedupRecords recs).1.length ∧
        (dedupPhase st recs).2 = (dedupRecords recs).1) := by
  intro recs
  refine ⟨dedupGo_length [] recs, ?_, dedupGo_sublist [] recs,
    fun r hr => (dedupGo_first [] recs r hr).2, dedupGo_pairwise [] recs, ?_, ?_⟩
  · have h1 := dedupGo_length [] recs
    simp only [dedupRecords] at h1 ⊢
    omega
  · intro x hx
    rcases dedupGo_complete [] recs x hx with hex | hc
    · exact hex
    · simp at hc
  · intro st
    rcases hres : dedupRecords recs with ⟨out, c⟩
    simp [dedupPhase, hres]

/-- C5, witness: two records identical up to casing and whitespace in the
title collapse to the first one, with `duplicatesRemoved = 1`, and the kept
record is the `find?`-first of its key. -/
theorem dedup_first_wins_witness :
    dedupRecords [⟨"Title One", "X", "L", "u1", ⟨2024, 1, 1⟩⟩,
                  ⟨" title  ONE ", "X", "L", "u2", ⟨2024, 1, 2⟩⟩] =
      ([⟨"Title One", "X", "L", "u1", ⟨2024, 1, 1⟩⟩], 1) ∧
    List.find?
        (fun x => recKey x == recKey ⟨"Title One", "X", "L", "u1", ⟨2024, 1, 1⟩⟩)
        [⟨"Title One", "X", "L", "u1", ⟨2024, 1, 1⟩⟩,
         ⟨" title  ONE ", "X", "L", "u2", ⟨2024, 1, 2⟩⟩] =
      some ⟨"Title One", "X", "L", "u1", ⟨2024, 1, 1⟩⟩ := by
  refine ⟨rfl, ?_⟩
  exact (dedup_first_wins [⟨"Title One", "X", "L", "u1", ⟨2024, 1, 1⟩⟩,
      ⟨" title  ONE ", "X", "L", "u2", ⟨2024, 1, 2⟩⟩]).2.2.2.1
    ⟨"Title One", "X", "L", "u1", ⟨2024, 1, 1⟩⟩ (by decide)

end Qobuz
